import Mathlib

/-!
# Verification of the stringi fixed-pattern locate engine

Shallow embedding of `src/stri_search_fixed_locate.cpp` and of the recyclable
containers `src/stri_container_listutf8.h` / `src/stri_container_listint.h`.

Strings are byte lists (`List Nat`); an R character-vector element is
`Option (List Nat)` with `none` standing for `NA`.  Match records are pairs of
`Option Int` fields, `none` standing for `NA_INTEGER`.

Components of the engine that the repository excerpt only calls
(`stri__recycling_rule`, the `StriByteSearchMatcher`, and
`StriContainerUTF8_indexable::UTF8_to_UChar32_index`) are modelled from the
specification; their doc comments say so explicitly.
-/

/-- A byte string: the content of one UTF-8 `CHARSXP`. -/
abbrev ByteStr := List Nat

/-- One element of an R character vector: `none` is `NA_character_`. -/
abbrev RString := Option ByteStr

/-- One row of a locate result matrix: two `INTSXP` cells, `none` = `NA_INTEGER`. -/
abbrev MatchRecord := Option Int × Option Int

/-- The `NA` row emitted for missing inputs: both cells `NA_INTEGER`. -/
def naRecord : MatchRecord := (none, none)

/-- Failure mode of the recycling rule. -/
inductive RecycleError where
  | Incompatible
deriving DecidableEq

/-- Modelled from the spec: `stri__recycling_rule` (RecyclingPlanner §4.1) is
absent from the excerpt.  With `require_nonzero = true` (both call sites pass
`true`), a zero input length yields `L = 0`; otherwise `L` is the maximum of
the lengths and every nonzero length must divide `L`, else the call fails with
`RecycleError.Incompatible`. -/
def stri__recycling_rule (ns np : Nat) : Except RecycleError Nat :=
  if ns = 0 ∨ np = 0 then .ok 0
  else
    let L := max ns np
    if L % ns = 0 ∧ L % np = 0 then .ok L else .error .Incompatible

/-- Does `p` occur in `s` as the byte substring starting at byte offset `i`? -/
def matchesAt (s p : ByteStr) (i : Nat) : Bool :=
  (s.drop i).take p.length == p

/-- Modelled from the spec: the fixed `StriByteSearchMatcher` is absent from
the excerpt.  Smallest match offset that is `≥ q` (the `findNext` scan
position), or `none` when the pattern does not occur at or after `q`. -/
def findFirstFrom (s p : ByteStr) (q : Nat) : Option Nat :=
  (List.range (s.length + 1)).find? (fun i => decide (q ≤ i) && matchesAt s p i)

/-- Modelled from the spec: `findFirst` searches from offset 0. -/
def findFirst (s p : ByteStr) : Option Nat :=
  findFirstFrom s p 0

/-- Modelled from the spec: `findLast` returns the rightmost match offset. -/
def findLast (s p : ByteStr) : Option Nat :=
  (List.range (s.length + 1)).reverse.find? (fun i => matchesAt s p i)

/-- A UTF-8 codepoint-lead byte (anything but a continuation byte `10xxxxxx`). -/
def isLeadByte (b : Nat) : Bool :=
  decide (b < 128 ∨ 192 ≤ b)

/-- Modelled from the spec: the CodepointIndexer (§4.2) of
`StriContainerUTF8_indexable` is absent from the excerpt.  The 0-based
codepoint offset of byte offset `b` in `s`: the number of codepoint-lead bytes
strictly before `b` (the linear scan of `UTF8_to_UChar32_index` counts one
codepoint per lead byte it walks past). -/
def countCp (s : ByteStr) (b : Nat) : Nat :=
  ((s.take b).filter isLeadByte).length

/-- UTF-8 encoding of one Unicode scalar value (assuming `c < 0x110000`). -/
def utf8EncodeChar (c : Nat) : ByteStr :=
  if c < 128 then [c]
  else if c < 2048 then [192 + c / 64, 128 + c % 64]
  else if c < 65536 then [224 + c / 4096, 128 + (c / 64) % 64, 128 + c % 64]
  else [240 + c / 262144, 128 + (c / 4096) % 64, 128 + (c / 64) % 64, 128 + c % 64]

/-- UTF-8 encoding of a codepoint sequence. -/
def utf8EncodeList (cs : List Nat) : ByteStr :=
  (cs.map utf8EncodeChar).flatten

/-- One iteration record of `stri__locate_firstlast_fixed` (the body of the
vectorized loop, lines 92-126 of `stri_search_fixed_locate.cpp`): `NA` row on
NA input, `(-1,-1)` (length mode) or `NA` on empty pattern or no match, else
the converted `(start, end)` (or `(start, end - (start - 1))` in length mode),
1-based codepoint units. -/
def locateFirstLastElem (first get_length1 : Bool) (subj pat : RString) :
    MatchRecord :=
  match subj, pat with
  | none, _ => naRecord
  | some _, none => naRecord
  | some s, some p =>
    if p.length = 0 then
      if get_length1 then (some (-1), some (-1)) else naRecord
    else
      match (if first then findFirst s p else findLast s p) with
      | none =>
        if get_length1 then (some (-1), some (-1)) else naRecord
      | some start =>
        let st : Int := (countCp s start : Int) + 1
        let en : Int := (countCp s (start + p.length) : Int)
        if get_length1 then (some st, some (en - (st - 1))) else (some st, some en)

/-- `SEXP stri__locate_firstlast_fixed(str, pattern, opts_fixed, first, get_length1)`:
recycle the two vectors to length `L`, then emit one record per vectorized
index, element `i` using subject `i mod ns` and pattern `i mod np`. -/
def stri__locate_firstlast_fixed (str pattern : List RString)
    (first get_length1 : Bool) : Except RecycleError (List MatchRecord) :=
  match stri__recycling_rule str.length pattern.length with
  | .error e => .error e
  | .ok L => .ok ((List.range L).map (fun i =>
      locateFirstLastElem first get_length1
        (str.getD (i % str.length) none)
        (pattern.getD (i % pattern.length) none)))

/-- `SEXP stri_locate_first_fixed(str, pattern, opts_fixed, get_length)`. -/
def stri_locate_first_fixed (str pattern : List RString) (get_length1 : Bool) :
    Except RecycleError (List MatchRecord) :=
  stri__locate_firstlast_fixed str pattern true get_length1

/-- `SEXP stri_locate_last_fixed(str, pattern, opts_fixed, get_length)`. -/
def stri_locate_last_fixed (str pattern : List RString) (get_length1 : Bool) :
    Except RecycleError (List MatchRecord) :=
  stri__locate_firstlast_fixed str pattern false get_length1

/-- Modelled from the spec: the `findFirst`/`findNext` scan loop of
`stri_locate_all_fixed` (lines 262-266) driven by the absent matcher.  After a
match at `[st, st + |p|)` the next scan starts at `st + |p|`, or at `st + 1`
when overlapping matches are allowed.  `fuel` bounds the recursion; the
callers pass `|s| + 1`, enough for every possible match. -/
def findAllFrom (s p : ByteStr) (overlap : Bool) : Nat → Nat → List (Nat × Nat)
  | _, 0 => []
  | q, fuel + 1 =>
    match findFirstFrom s p q with
    | none => []
    | some st =>
      (st, st + p.length) ::
        findAllFrom s p overlap (if overlap then st + 1 else st + p.length) fuel

/-- All byte-offset occurrence ranges, in left-to-right discovery order. -/
def findAllOccurrences (s p : ByteStr) (overlap : Bool) : List (Nat × Nat) :=
  findAllFrom s p overlap 0 (s.length + 1)

/-- The `stri__matrix_NA_INTEGER(omit_no_match1?0:1, 2, get_length1?-1:NA_INTEGER)`
sentinel emitted by `stri_locate_all_fixed` on empty pattern or no match. -/
def noMatchRows (omit_no_match1 get_length1 : Bool) : List MatchRecord :=
  if omit_no_match1 then []
  else [if get_length1 then (some (-1), some (-1)) else naRecord]

/-- One iteration of the `stri_locate_all_fixed` loop (lines 249-292): `NA` row
on NA input; sentinel rows on empty pattern or when `findFirst` fails; else
every occurrence converted to 1-based codepoint units, rewritten to
`(start, end - start + 1)` in length mode. -/
def locateAllElem (overlap omit_no_match1 get_length1 : Bool)
    (subj pat : RString) : List MatchRecord :=
  match subj, pat with
  | none, _ => [naRecord]
  | some _, none => [naRecord]
  | some s, some p =>
    if p.length = 0 then noMatchRows omit_no_match1 get_length1
    else
      match findFirst s p with
      | none => noMatchRows omit_no_match1 get_length1
      | some _ =>
        (findAllOccurrences s p overlap).map (fun r =>
          let st : Int := (countCp s r.1 : Int) + 1
          let en : Int := (countCp s r.2 : Int)
          if get_length1 then (some st, some (en - st + 1)) else (some st, some en))

/-- `SEXP stri_locate_all_fixed(str, pattern, omit_no_match, opts_fixed, get_length)`;
`overlap` is the `overlap` byte-search option drawn from `opts_fixed`. -/
def stri_locate_all_fixed (str pattern : List RString)
    (omit_no_match1 get_length1 overlap : Bool) :
    Except RecycleError (List (List MatchRecord)) :=
  match stri__recycling_rule str.length pattern.length with
  | .error e => .error e
  | .ok L => .ok ((List.range L).map (fun i =>
      locateAllElem overlap omit_no_match1 get_length1
        (str.getD (i % str.length) none)
        (pattern.getD (i % pattern.length) none)))

/-- The exception thrown by the debug-build container assertions. -/
inductive StriException where
  | mk (msg : String)
deriving DecidableEq

/-- `StriContainerListUTF8` (`stri_container_listutf8.h`): `data` holds `n`
entries, a `NULL` (here `none`) entry marking NA; `nrecycle` is the vectorized
length.  Indices are `Int` so that the `i < 0` debug check is expressible. -/
structure StriContainerListUTF8 where
  data : List (Option ByteStr)
  nrecycle : Nat

/-- `n` of `StriContainerBase`: the raw element count before recycling. -/
def StriContainerListUTF8.n (c : StriContainerListUTF8) : Nat :=
  c.data.length

/-- `StriContainerListUTF8::isNA` (debug build): out-of-bounds throws, else
reports whether `data[i % n]` is `NULL`. -/
def StriContainerListUTF8.isNA (c : StriContainerListUTF8) (i : Int) :
    Except StriException Bool :=
  if i < 0 ∨ (c.nrecycle : Int) ≤ i then
    .error (StriException.mk "StriContainerListUTF8::isNA(): INDEX OUT OF BOUNDS")
  else
    .ok (c.data.getD (i.toNat % c.n) none).isNone

/-- `StriContainerListUTF8::get` (debug build): out-of-bounds or NA access
throws, else returns `*(data[i % n])`. -/
def StriContainerListUTF8.get (c : StriContainerListUTF8) (i : Int) :
    Except StriException ByteStr :=
  if i < 0 ∨ (c.nrecycle : Int) ≤ i then
    .error (StriException.mk "StriContainerListUTF8::get(): INDEX OUT OF BOUNDS")
  else
    match c.data.getD (i.toNat % c.n) none with
    | none => .error (StriException.mk "StriContainerListUTF8::get(): isNA")
    | some v => .ok v

/-- An `IntVec` (`stri_intvec.h`): an integer vector or the NA marker. -/
abbrev IntVec := Option (List Int)

/-- `StriContainerListInt` (`stri_container_listint.h`): `data` holds `n`
`IntVec` entries; `nrecycle` is the vectorized length. -/
structure StriContainerListInt where
  data : List IntVec
  nrecycle : Nat

/-- `n` of `StriContainerBase` for the integer-list container. -/
def StriContainerListInt.n (c : StriContainerListInt) : Nat :=
  c.data.length

/-- `StriContainerListInt::isNA` (debug build). -/
def StriContainerListInt.isNA (c : StriContainerListInt) (i : Int) :
    Except StriException Bool :=
  if i < 0 ∨ (c.nrecycle : Int) ≤ i then
    .error (StriException.mk "StriContainerListInt::isNA(): INDEX OUT OF BOUNDS")
  else
    .ok (c.data.getD (i.toNat % c.n) none).isNone

/-- `StriContainerListInt::get` (debug build). -/
def StriContainerListInt.get (c : StriContainerListInt) (i : Int) :
    Except StriException (List Int) :=
  if i < 0 ∨ (c.nrecycle : Int) ≤ i then
    .error (StriException.mk "StriContainerListInt::get(): INDEX OUT OF BOUNDS")
  else
    match c.data.getD (i.toNat % c.n) none with
    | none => .error (StriException.mk "StriContainerListInt::get(): isNA")
    | some v => .ok v

/-! ## Basic facts about the byte-search matcher model -/

lemma matchesAt_iff {s p : ByteStr} {i : Nat} :
    matchesAt s p i = true ↔ (s.drop i).take p.length = p := by
  simp [matchesAt]

lemma matchesAt_bounds {s p : ByteStr} {i : Nat} (hp : p ≠ [])
    (h : matchesAt s p i = true) : i + p.length ≤ s.length := by
  rw [matchesAt_iff] at h
  have hlen := congrArg List.length h
  rw [List.length_take, List.length_drop] at hlen
  have hmin : min p.length (s.length - i) ≤ s.length - i := Nat.min_le_right _ _
  rw [hlen] at hmin
  have hppos : 0 < p.length := List.length_pos.mpr hp
  omega

lemma matchesAt_false_of_le {s p : ByteStr} {i : Nat} (hp : p ≠ [])
    (hi : s.length ≤ i) : matchesAt s p i = false := by
  have hd : s.drop i = [] := List.drop_eq_nil_iff.mpr hi
  rw [matchesAt, hd, List.take_nil]
  exact beq_eq_false_iff_ne.mpr (fun h => hp h.symm)

lemma findFirstFrom_some {s p : ByteStr} {q b : Nat}
    (h : findFirstFrom s p q = some b) : q ≤ b ∧ matchesAt s p b = true := by
  have hpred := List.find?_some h
  simpa using hpred

lemma findFirst_some {s p : ByteStr} {b : Nat} (h : findFirst s p = some b) :
    matchesAt s p b = true :=
  (findFirstFrom_some h).2

lemma findLast_some {s p : ByteStr} {b : Nat} (h : findLast s p = some b) :
    matchesAt s p b = true :=
  List.find?_some h

lemma findFirstFrom_eq_none {s p : ByteStr} {q : Nat} (hp : p ≠ [])
    (hno : ∀ i, i < s.length → matchesAt s p i = false) :
    findFirstFrom s p q = none := by
  rw [findFirstFrom, List.find?_eq_none]
  intro i _ hcon
  rcases (by simpa using hcon : q ≤ i ∧ matchesAt s p i = true) with ⟨-, hm⟩
  rcases Nat.lt_or_ge i s.length with h | h
  · rw [hno i h] at hm
    exact Bool.false_ne_true hm
  · rw [matchesAt_false_of_le hp h] at hm
    exact Bool.false_ne_true hm

lemma findFirst_eq_none {s p : ByteStr} (hp : p ≠ [])
    (hno : ∀ i, i < s.length → matchesAt s p i = false) :
    findFirst s p = none :=
  findFirstFrom_eq_none hp hno

lemma findLast_eq_none {s p : ByteStr} (hp : p ≠ [])
    (hno : ∀ i, i < s.length → matchesAt s p i = false) :
    findLast s p = none := by
  rw [findLast, List.find?_eq_none]
  intro i _ hm
  rcases Nat.lt_or_ge i s.length with h | h
  · rw [hno i h] at hm
    exact Bool.false_ne_true hm
  · rw [matchesAt_false_of_le hp h] at hm
    exact Bool.false_ne_true hm

lemma findFirst_isSome {s p : ByteStr} {i : Nat} (hp : p ≠ [])
    (hm : matchesAt s p i = true) : ∃ b, findFirst s p = some b := by
  have hppos : 0 < p.length := List.length_pos.mpr hp
  have hi : i < s.length + 1 := by
    have := matchesAt_bounds hp hm
    omega
  have hex : ∃ x ∈ List.range (s.length + 1),
      (decide (0 ≤ x) && matchesAt s p x) = true :=
    ⟨i, List.mem_range.mpr hi, by simp [hm]⟩
  exact Option.isSome_iff_exists.mp (List.find?_isSome.mpr hex)

lemma findLast_isSome {s p : ByteStr} {i : Nat} (hp : p ≠ [])
    (hm : matchesAt s p i = true) : ∃ b, findLast s p = some b := by
  have hppos : 0 < p.length := List.length_pos.mpr hp
  have hi : i < s.length + 1 := by
    have := matchesAt_bounds hp hm
    omega
  have hex : ∃ x ∈ (List.range (s.length + 1)).reverse, matchesAt s p x = true :=
    ⟨i, List.mem_reverse.mpr (List.mem_range.mpr hi), hm⟩
  exact Option.isSome_iff_exists.mp (List.find?_isSome.mpr hex)

/-! ## UTF-8 structure lemmas -/

lemma utf8EncodeChar_eq (c : Nat) :
    ∃ b t, utf8EncodeChar c = b :: t ∧ isLeadByte b = true ∧
      ∀ x ∈ t, isLeadByte x = false := by
  have h64 : c % 64 < 64 := Nat.mod_lt _ (by norm_num)
  have h64a : (c / 64) % 64 < 64 := Nat.mod_lt _ (by norm_num)
  have h64b : (c / 4096) % 64 < 64 := Nat.mod_lt _ (by norm_num)
  rw [utf8EncodeChar]
  split_ifs with h1 h2 h3
  · exact ⟨c, [], rfl, by simp [isLeadByte]; omega, by simp⟩
  · refine ⟨192 + c / 64, [128 + c % 64], rfl, by simp [isLeadByte], ?_⟩
    intro x hx
    simp at hx
    subst hx
    simp [isLeadByte]
    omega
  · refine ⟨224 + c / 4096, [128 + (c / 64) % 64, 128 + c % 64], rfl,
      by simp [isLeadByte]; omega, ?_⟩
    intro x hx
    simp at hx
    rcases hx with hx | hx <;> subst hx <;> (simp [isLeadByte]; omega)
  · refine ⟨240 + c / 262144,
      [128 + (c / 4096) % 64, 128 + (c / 64) % 64, 128 + c % 64], rfl,
      by simp [isLeadByte]; omega, ?_⟩
    intro x hx
    simp at hx
    rcases hx with hx | hx | hx <;> subst hx <;> (simp [isLeadByte]; omega)

lemma utf8EncodeChar_ne_nil (c : Nat) : utf8EncodeChar c ≠ [] := by
  obtain ⟨b, t, he, -, -⟩ := utf8EncodeChar_eq c
  rw [he]
  simp

lemma leadCount_encodeChar (c : Nat) :
    ((utf8EncodeChar c).filter isLeadByte).length = 1 := by
  obtain ⟨b, t, he, hb, ht⟩ := utf8EncodeChar_eq c
  have htl : t.filter isLeadByte = [] := List.filter_eq_nil_iff.mpr (by
    intro a ha
    rw [ht a ha]
    simp)
  rw [he, List.filter_cons, if_pos hb, htl]
  rfl

lemma utf8EncodeList_cons (c : Nat) (cs : List Nat) :
    utf8EncodeList (c :: cs) = utf8EncodeChar c ++ utf8EncodeList cs := by
  simp [utf8EncodeList]

lemma utf8EncodeList_append (xs ys : List Nat) :
    utf8EncodeList (xs ++ ys) = utf8EncodeList xs ++ utf8EncodeList ys := by
  simp [utf8EncodeList]

lemma utf8EncodeList_ne_nil {ds : List Nat} (h : ds ≠ []) :
    utf8EncodeList ds ≠ [] := by
  obtain ⟨d, ds', rfl⟩ := List.exists_cons_of_ne_nil h
  rw [utf8EncodeList_cons]
  intro hcon
  exact utf8EncodeChar_ne_nil d (List.append_eq_nil.mp hcon).1

lemma leadCount_encodeList (cs : List Nat) :
    ((utf8EncodeList cs).filter isLeadByte).length = cs.length := by
  induction cs with
  | nil => rfl
  | cons c cs ih =>
    rw [utf8EncodeList_cons, List.filter_append, List.length_append,
      leadCount_encodeChar, ih, List.length_cons]
    omega

lemma countCp_prefix (cs : List Nat) (k : Nat) (hk : k ≤ cs.length) :
    countCp (utf8EncodeList cs) (utf8EncodeList (cs.take k)).length = k := by
  have hsplit : utf8EncodeList cs =
      utf8EncodeList (cs.take k) ++ utf8EncodeList (cs.drop k) := by
    rw [← utf8EncodeList_append, List.take_append_drop]
  rw [countCp, hsplit, List.take_left, leadCount_encodeList, List.length_take]
  omega

lemma boundary_of_drop_lead :
    ∀ (cs : List Nat) (b x : Nat) (r : ByteStr),
      (utf8EncodeList cs).drop b = x :: r → isLeadByte x = true →
      ∃ k, k < cs.length ∧ b = (utf8EncodeList (cs.take k)).length := by
  intro cs
  induction cs with
  | nil =>
    intro b x r hd _
    rw [show utf8EncodeList [] = [] from rfl, List.drop_nil] at hd
    exact absurd hd (by simp)
  | cons c cs ih =>
    intro b x r hd hx
    obtain ⟨b0, t, he, hb0, ht⟩ := utf8EncodeChar_eq c
    rw [utf8EncodeList_cons, List.drop_append_eq_append_drop] at hd
    rcases Nat.lt_or_ge b (utf8EncodeChar c).length with hlt | hge
    · rcases Nat.eq_zero_or_pos b with rfl | hbpos
      · exact ⟨0, by simp, rfl⟩
      · exfalso
        obtain ⟨j, rfl⟩ : ∃ j, b = j + 1 := ⟨b - 1, by omega⟩
        rw [he, List.drop_succ_cons] at hd
        have hjlt : j < t.length := by
          have : (utf8EncodeChar c).length = t.length + 1 := by rw [he]; rfl
          omega
        have hdj : t.drop j ≠ [] := by
          rw [Ne, List.drop_eq_nil_iff]
          omega
        obtain ⟨y, t0, hyt⟩ := List.exists_cons_of_ne_nil hdj
        rw [hyt, List.cons_append] at hd
        have hxy : y = x := (List.cons.injEq _ _ _ _).mp hd |>.1
        have hymem : y ∈ t := List.drop_subset j t (by rw [hyt]; exact List.mem_cons_self _ _)
        rw [hxy] at hymem
        rw [ht x hymem] at hx
        exact Bool.false_ne_true hx
    · rw [List.drop_eq_nil_of_le hge, List.nil_append] at hd
      obtain ⟨k, hk, hbk⟩ := ih (b - (utf8EncodeChar c).length) x r hd hx
      refine ⟨k + 1, by simpa using hk, ?_⟩
      rw [List.take_succ_cons, utf8EncodeList_cons, List.length_append]
      omega

lemma countCp_matches_add {s p : ByteStr} {b : Nat} (h : matchesAt s p b = true) :
    countCp s (b + p.length) = countCp s b + (p.filter isLeadByte).length := by
  have hp : (s.drop b).take p.length = p := matchesAt_iff.mp h
  rw [countCp, countCp, List.take_add, hp, List.filter_append, List.length_append]

lemma convert_match (cs ds : List Nat) (b : Nat) (hne : ds ≠ [])
    (hm : matchesAt (utf8EncodeList cs) (utf8EncodeList ds) b = true) :
    ∃ k, k < cs.length ∧ b = (utf8EncodeList (cs.take k)).length ∧
      countCp (utf8EncodeList cs) b = k ∧
      countCp (utf8EncodeList cs) (b + (utf8EncodeList ds).length) = k + ds.length := by
  obtain ⟨d, ds', rfl⟩ := List.exists_cons_of_ne_nil hne
  obtain ⟨x, t, he, hx, -⟩ := utf8EncodeChar_eq d
  have hform : utf8EncodeList (d :: ds') = x :: (t ++ utf8EncodeList ds') := by
    rw [utf8EncodeList_cons, he, List.cons_append]
  have hp : ((utf8EncodeList cs).drop b).take (utf8EncodeList (d :: ds')).length
      = utf8EncodeList (d :: ds') := matchesAt_iff.mp hm
  have hdrop : ∃ rest, (utf8EncodeList cs).drop b = x :: rest := by
    rcases hdcase : (utf8EncodeList cs).drop b with _ | ⟨y, rest⟩
    · rw [hdcase, List.take_nil] at hp
      exact absurd hp.symm (utf8EncodeList_ne_nil (by simp))
    · rw [hdcase, hform, List.length_cons, List.take_succ_cons] at hp
      have hyx : y = x := ((List.cons.injEq _ _ _ _).mp hp).1
      exact ⟨rest, by rw [hyx]⟩
  obtain ⟨rest, hdrop⟩ := hdrop
  obtain ⟨k, hk, hb⟩ := boundary_of_drop_lead cs b x rest hdrop hx
  refine ⟨k, hk, hb, ?_, ?_⟩
  · rw [hb]
    exact countCp_prefix cs k (le_of_lt hk)
  · rw [countCp_matches_add hm, leadCount_encodeList, hb,
      countCp_prefix cs k (le_of_lt hk), List.length_cons]

/-! ## Facts about the all-occurrences scan -/

lemma findAllFrom_mem {s p : ByteStr} {ov : Bool} :
    ∀ {fuel q : Nat} {r : Nat × Nat}, r ∈ findAllFrom s p ov q fuel →
      q ≤ r.1 ∧ matchesAt s p r.1 = true ∧ r.2 = r.1 + p.length := by
  intro fuel
  induction fuel with
  | zero =>
    intro q r h
    simp [findAllFrom] at h
  | succ n ih =>
    intro q r h
    rw [findAllFrom] at h
    rcases hf : findFirstFrom s p q with _ | st
    · rw [hf] at h
      simp at h
    · rw [hf] at h
      obtain ⟨hq, hm⟩ := findFirstFrom_some hf
      rcases List.mem_cons.mp h with rfl | h2
      · exact ⟨hq, hm, rfl⟩
      · obtain ⟨hq2, hm2, he2⟩ := ih h2
        refine ⟨?_, hm2, he2⟩
        have hstep : q ≤ (if ov then st + 1 else st + p.length) := by
          split <;> omega
        exact le_trans hstep hq2
  
lemma findAllFrom_pairwise_nonoverlap {s p : ByteStr} :
    ∀ {fuel q : Nat}, List.Pairwise (fun a b : Nat × Nat => a.2 ≤ b.1)
      (findAllFrom s p false q fuel) := by
  intro fuel
  induction fuel with
  | zero =>
    intro q
    simp [findAllFrom]
  | succ n ih =>
    intro q
    rw [findAllFrom]
    rcases hf : findFirstFrom s p q with _ | st
    · simp
    · rw [List.pairwise_cons]
      refine ⟨?_, ih⟩
      intro r hr
      have h2 := (findAllFrom_mem hr).1
      simpa using h2

lemma findAllFrom_starts_lt {s p : ByteStr} {ov : Bool} (hp : p ≠ []) :
    ∀ {fuel q : Nat}, List.Pairwise (fun a b : Nat × Nat => a.1 < b.1)
      (findAllFrom s p ov q fuel) := by
  have hppos : 0 < p.length := List.length_pos.mpr hp
  intro fuel
  induction fuel with
  | zero =>
    intro q
    simp [findAllFrom]
  | succ n ih =>
    intro q
    rw [findAllFrom]
    rcases hf : findFirstFrom s p q with _ | st
    · simp
    · rw [List.pairwise_cons]
      refine ⟨?_, ih⟩
      intro r hr
      have h2 := (findAllFrom_mem hr).1
      have hstep : st + 1 ≤ (if ov then st + 1 else st + p.length) := by
        split <;> omega
      show st < r.1
      omega

lemma findAllOccurrences_ne_nil_findFirst {s p : ByteStr} {ov : Bool}
    (h : findAllOccurrences s p ov ≠ []) : ∃ st, findFirst s p = some st := by
  rw [findAllOccurrences, findAllFrom] at h
  rcases hf : findFirstFrom s p 0 with _ | st
  · rw [hf] at h
    simp at h
  · exact ⟨st, hf⟩

/-! ## Conversion of found matches to codepoint records -/

lemma locateFirstLast_found (cs ds : List Nat) (first gl : Bool) {b : Nat}
    (hb : (if first then findFirst (utf8EncodeList cs) (utf8EncodeList ds)
           else findLast (utf8EncodeList cs) (utf8EncodeList ds)) = some b)
    (hne : ds ≠ []) :
    ∃ k, k < cs.length ∧ countCp (utf8EncodeList cs) b = k ∧
      locateFirstLastElem first gl (some (utf8EncodeList cs))
          (some (utf8EncodeList ds)) =
        (if gl then (some ((k : Int) + 1), some ((ds.length : Nat) : Int))
         else (some ((k : Int) + 1), some ((k : Int) + (ds.length : Nat)))) := by
  have hm : matchesAt (utf8EncodeList cs) (utf8EncodeList ds) b = true := by
    rcases first with _ | _
    · exact findLast_some (by simpa using hb)
    · exact findFirst_some (by simpa using hb)
  obtain ⟨k, hk, -, hcb, hce⟩ := convert_match cs ds b hne hm
  have hplen : ¬(utf8EncodeList ds).length = 0 := by
    simpa [List.length_eq_zero] using utf8EncodeList_ne_nil hne
  refine ⟨k, hk, hcb, ?_⟩
  simp only [locateFirstLastElem, if_neg hplen, hb, hcb, hce]
  rcases gl with _ | _
  · simp only [Bool.false_eq_true, if_false, Prod.mk.injEq, Option.some.injEq]
    refine ⟨by trivial, ?_⟩
    push_cast
    ring
  · simp only [if_true, Prod.mk.injEq, Option.some.injEq]
    refine ⟨by trivial, ?_⟩
    push_cast
    ring

lemma locateAll_record (cs ds : List Nat) (ov om : Bool) {j : Nat} {r : Nat × Nat}
    (hr : (findAllOccurrences (utf8EncodeList cs) (utf8EncodeList ds) ov).get? j
      = some r) (hne : ds ≠ []) :
    ∃ k, k < cs.length ∧
      (locateAllElem ov om false (some (utf8EncodeList cs))
        (some (utf8EncodeList ds))).get? j
        = some (some ((k : Int) + 1), some ((k : Int) + (ds.length : Nat))) ∧
      (locateAllElem ov om true (some (utf8EncodeList cs))
        (some (utf8EncodeList ds))).get? j
        = some (some ((k : Int) + 1), some ((ds.length : Nat) : Int)) := by
  have hplen : ¬(utf8EncodeList ds).length = 0 := by
    simpa [List.length_eq_zero] using utf8EncodeList_ne_nil hne
  have hnn : findAllOccurrences (utf8EncodeList cs) (utf8EncodeList ds) ov ≠ [] := by
    intro hcon
    rw [hcon] at hr
    simp at hr
  obtain ⟨st0, hf0⟩ := findAllOccurrences_ne_nil_findFirst hnn
  obtain ⟨-, hm, he2⟩ := findAllFrom_mem (List.get?_mem hr)
  obtain ⟨k, hk, -, hcb, hce⟩ := convert_match cs ds r.1 hne hm
  refine ⟨k, hk, ?_, ?_⟩
  · simp only [locateAllElem, if_neg hplen, hf0]
    rw [List.get?_map, hr]
    simp only [Option.map_some', Option.some.injEq]
    simp only [Bool.false_eq_true, if_false]
    rw [he2, hce, hcb]
    simp only [Prod.mk.injEq, Option.some.injEq]
    refine ⟨by trivial, ?_⟩
    push_cast
    ring
  · simp only [locateAllElem, if_neg hplen, hf0]
    rw [List.get?_map, hr]
    simp only [Option.map_some', Option.some.injEq]
    simp only [if_true]
    rw [he2, hce, hcb]
    simp only [Prod.mk.injEq, Option.some.injEq]
    refine ⟨by trivial, ?_⟩
    push_cast
    ring

/-! ## Claim theorems -/

/-- C1: the vectorized length is `L = max(ns, np)`; each of the three locate
entry points produces exactly `L` output records, element `i` using subject
`i mod ns` and pattern `i mod np`; a zero length yields an empty result; and
a nonzero length that does not divide `L` fails with `RecyclingIncompatible`. -/
theorem C1_recycling_vectorization (str pattern : List RString)
    (first gl om ov : Bool) :
    (str.length = 0 ∨ pattern.length = 0 →
      stri__locate_firstlast_fixed str pattern first gl = .ok [] ∧
      stri_locate_all_fixed str pattern om gl ov = .ok []) ∧
    (0 < str.length → 0 < pattern.length →
      max str.length pattern.length % str.length = 0 →
      max str.length pattern.length % pattern.length = 0 →
      ∃ rs rss,
        stri__locate_firstlast_fixed str pattern first gl = .ok rs ∧
        stri_locate_all_fixed str pattern om gl ov = .ok rss ∧
        rs.length = max str.length pattern.length ∧
        rss.length = max str.length pattern.length ∧
        ∀ i, i < max str.length pattern.length →
          rs.get? i = some (locateFirstLastElem first gl
            (str.getD (i % str.length) none)
            (pattern.getD (i % pattern.length) none)) ∧
          rss.get? i = some (locateAllElem ov om gl
            (str.getD (i % str.length) none)
            (pattern.getD (i % pattern.length) none))) ∧
    (0 < str.length → 0 < pattern.length →
      ¬(max str.length pattern.length % str.length = 0 ∧
        max str.length pattern.length % pattern.length = 0) →
      stri__locate_firstlast_fixed str pattern first gl = .error .Incompatible ∧
      stri_locate_all_fixed str pattern om gl ov = .error .Incompatible) := by
  refine ⟨?_, ?_, ?_⟩
  · intro h
    have hrule : stri__recycling_rule str.length pattern.length = .ok 0 := by
      rw [stri__recycling_rule, if_pos h]
    constructor
    · simp [stri__locate_firstlast_fixed, hrule]
    · simp [stri_locate_all_fixed, hrule]
  · intro h1 h2 h3 h4
    have hne : ¬(str.length = 0 ∨ pattern.length = 0) := by omega
    have hrule : stri__recycling_rule str.length pattern.length
        = .ok (max str.length pattern.length) := by
      rw [stri__recycling_rule, if_neg hne]
      show (if max str.length pattern.length % str.length = 0 ∧
          max str.length pattern.length % pattern.length = 0
        then Except.ok (max str.length pattern.length)
        else Except.error RecycleError.Incompatible)
        = Except.ok (max str.length pattern.length)
      rw [if_pos ⟨h3, h4⟩]
    refine ⟨(List.range (max str.length pattern.length)).map (fun i =>
        locateFirstLastElem first gl (str.getD (i % str.length) none)
          (pattern.getD (i % pattern.length) none)),
      (List.range (max str.length pattern.length)).map (fun i =>
        locateAllElem ov om gl (str.getD (i % str.length) none)
          (pattern.getD (i % pattern.length) none)),
      ?_, ?_, ?_, ?_, ?_⟩
    · simp [stri__locate_firstlast_fixed, hrule]
    · simp [stri_locate_all_fixed, hrule]
    · simp
    · simp
    · intro i hi
      rw [List.get?_map, List.get?_map, List.get?_range hi]
      exact ⟨rfl, rfl⟩
  · intro h1 h2 h3
    have hne : ¬(str.length = 0 ∨ pattern.length = 0) := by omega
    have hrule : stri__recycling_rule str.length pattern.length
        = .error .Incompatible := by
      rw [stri__recycling_rule, if_neg hne]
      show (if max str.length pattern.length % str.length = 0 ∧
          max str.length pattern.length % pattern.length = 0
        then Except.ok (max str.length pattern.length)
        else Except.error RecycleError.Incompatible)
        = Except.error RecycleError.Incompatible
      rw [if_neg h3]
    constructor
    · simp [stri__locate_firstlast_fixed, hrule]
    · simp [stri_locate_all_fixed, hrule]

/-- Witness for C1 at concrete inputs: lengths 4 and 3 fail with
`Incompatible`, a zero length yields `[]`, and lengths 3 and 1 produce
exactly 3 records. -/
theorem C1_recycling_vectorization_witness :
    stri__locate_firstlast_fixed (List.replicate 4 (some [97]))
        (List.replicate 3 (some [97])) true false = .error .Incompatible ∧
    stri__locate_firstlast_fixed ([] : List RString) [some [97]] true false
      = .ok [] ∧
    (∃ rs, stri__locate_firstlast_fixed [some [97], some [98], some [99]]
        [some [97]] true false = .ok rs ∧ rs.length = 3) := by
  refine ⟨?_, ?_, ?_⟩
  · exact ((C1_recycling_vectorization (List.replicate 4 (some [97]))
      (List.replicate 3 (some [97])) true false false false).2.2
      (by decide) (by decide) (by decide)).1
  · exact ((C1_recycling_vectorization ([] : List RString) [some [97]]
      true false false false).1 (Or.inl rfl)).1
  · obtain ⟨rs, rss, e1, -, e3, -, -⟩ :=
      (C1_recycling_vectorization [some [97], some [98], some [99]] [some [97]]
        true false false false).2.1 (by decide) (by decide) (by decide) (by decide)
    exact ⟨rs, e1, by rw [e3]; decide⟩

/-- C2: for a valid-UTF-8 subject (given by its codepoints `cs`) and a found
match of the encoded pattern `ds`, the reported record is in 1-based
Unicode-codepoint coordinates: the start equals the codepoint index `k` of the
match-start byte plus one, not the byte offset; and on the concrete scenario
"é"+"bc" with pattern "bc" all three entry points report start 2 (not byte
offset 3). -/
theorem C2_codepoint_coordinates (cs ds : List Nat) (first : Bool) (b : Nat)
    (hne : ds ≠ [])
    (hb : (if first then findFirst (utf8EncodeList cs) (utf8EncodeList ds)
           else findLast (utf8EncodeList cs) (utf8EncodeList ds)) = some b) :
    (∃ k, k < cs.length ∧ countCp (utf8EncodeList cs) b = k ∧
      b = (utf8EncodeList (cs.take k)).length ∧
      locateFirstLastElem first false (some (utf8EncodeList cs))
        (some (utf8EncodeList ds))
        = (some ((k : Int) + 1), some ((k : Int) + ds.length))) ∧
    stri_locate_first_fixed [some (utf8EncodeList [233, 98, 99])]
      [some [98, 99]] false = .ok [(some 2, some 3)] ∧
    stri_locate_last_fixed [some (utf8EncodeList [233, 98, 99])]
      [some [98, 99]] false = .ok [(some 2, some 3)] ∧
    stri_locate_all_fixed [some (utf8EncodeList [233, 98, 99])]
      [some [98, 99]] false false false = .ok [[(some 2, some 3)]] := by
  refine ⟨?_, by rfl, by rfl, by rfl⟩
  have hm : matchesAt (utf8EncodeList cs) (utf8EncodeList ds) b = true := by
    rcases first with _ | _
    · exact findLast_some (by simpa using hb)
    · exact findFirst_some (by simpa using hb)
  obtain ⟨k, hk, hbk, hcb, -⟩ := convert_match cs ds b hne hm
  obtain ⟨k2, hk2, hcb2, hrec⟩ := locateFirstLast_found cs ds first false hb hne
  have hkk : k2 = k := hcb2.symm.trans hcb
  subst hkk
  exact ⟨k2, hk, hcb, hbk, by simpa using hrec⟩

/-- Witness for C2 at the concrete "é"+"bc" scenario. -/
theorem C2_codepoint_coordinates_witness :
    stri_locate_first_fixed [some (utf8EncodeList [233, 98, 99])]
      [some [98, 99]] false = .ok [(some 2, some 3)] :=
  (C2_codepoint_coordinates [233, 98, 99] [98, 99] true 2 (by decide)
    (by rfl)).2.1

/-- C3: with `overlap_allowed=false` the collected occurrences are the greedy
left-to-right non-overlapping matches — every record is a true match of byte
length `|p|`, starts strictly increase (discovery order), and no two byte
ranges overlap (each end is at most the next start); with overlap the scan
resumes at `start+1`, so "aa" in "aaaa" yields 2 matches without overlap and
3 with. -/
theorem C3_greedy_nonoverlap (s p : ByteStr) (hp : p ≠ []) :
    List.Pairwise (fun a b : Nat × Nat => a.2 ≤ b.1)
      (findAllOccurrences s p false) ∧
    (∀ ov : Bool, List.Pairwise (fun a b : Nat × Nat => a.1 < b.1)
      (findAllOccurrences s p ov)) ∧
    (∀ (ov : Bool) (r : Nat × Nat), r ∈ findAllOccurrences s p ov →
      matchesAt s p r.1 = true ∧ r.2 = r.1 + p.length) ∧
    findAllOccurrences [97, 97, 97, 97] [97, 97] false = [(0, 2), (2, 4)] ∧
    findAllOccurrences [97, 97, 97, 97] [97, 97] true
      = [(0, 2), (1, 3), (2, 4)] ∧
    stri_locate_all_fixed [some [97, 97, 97, 97]] [some [97, 97]] false false
      false = .ok [[(some 1, some 2), (some 3, some 4)]] ∧
    stri_locate_all_fixed [some [97, 97, 97, 97]] [some [97, 97]] false false
      true = .ok [[(some 1, some 2), (some 2, some 3), (some 3, some 4)]] := by
  exact ⟨findAllFrom_pairwise_nonoverlap,
    fun ov => findAllFrom_starts_lt hp,
    fun ov r hr => ⟨(findAllFrom_mem hr).2.1, (findAllFrom_mem hr).2.2⟩,
    by rfl, by rfl, by rfl, by rfl⟩

/-- Witness for C3 at the concrete "aaaa" / "aa" scenario. -/
theorem C3_greedy_nonoverlap_witness :
    findAllOccurrences [97, 97, 97, 97] [97, 97] false = [(0, 2), (2, 4)] ∧
    findAllOccurrences [97, 97, 97, 97] [97, 97] true
      = [(0, 2), (1, 3), (2, 4)] :=
  ⟨(C3_greedy_nonoverlap [97, 97, 97, 97] [97, 97] (by decide)).2.2.2.1,
   (C3_greedy_nonoverlap [97, 97, 97, 97] [97, 97] (by decide)).2.2.2.2.1⟩

/-- C5: an NA subject or NA pattern yields the all-NA record in first/last
mode (regardless of the length flag), and a single NA row in all mode. -/
theorem C5_na_inputs (subj pat : RString) (first gl om ov : Bool)
    (h : subj = none ∨ pat = none) :
    locateFirstLastElem first gl subj pat = naRecord ∧
    locateAllElem ov om gl subj pat = [naRecord] := by
  rcases h with rfl | rfl
  · exact ⟨rfl, rfl⟩
  · rcases subj with _ | s
    · exact ⟨rfl, rfl⟩
    · exact ⟨rfl, rfl⟩

/-- Witness for C5 at an NA subject. -/
theorem C5_na_inputs_witness :
    locateFirstLastElem true true none (some [97]) = naRecord ∧
    locateAllElem true true true none (some [97]) = [naRecord] :=
  C5_na_inputs none (some [97]) true true true true (Or.inl rfl)

/-- C6: an empty pattern with a non-NA subject yields `(-1,-1)` in length
mode and the NA record in position-pair mode. -/
theorem C6_empty_pattern (subj : ByteStr) (first : Bool) :
    locateFirstLastElem first true (some subj) (some [])
      = (some (-1), some (-1)) ∧
    locateFirstLastElem first false (some subj) (some []) = naRecord :=
  ⟨rfl, rfl⟩

/-- C7: a non-empty pattern that occurs nowhere in the subject yields
`(-1,-1)` in length mode and the NA record in position-pair mode, for both
first and last search. -/
theorem C7_not_found (subj pat : ByteStr) (first : Bool) (hp : pat ≠ [])
    (h : ∀ i, i < subj.length → matchesAt subj pat i = false) :
    locateFirstLastElem first true (some subj) (some pat)
      = (some (-1), some (-1)) ∧
    locateFirstLastElem first false (some subj) (some pat) = naRecord := by
  have hplen : ¬pat.length = 0 := by
    simpa [List.length_eq_zero] using hp
  have hfind : (if first then findFirst subj pat else findLast subj pat)
      = none := by
    rcases first with _ | _
    · simpa using findLast_eq_none hp h
    · simpa using findFirst_eq_none hp h
  constructor <;> simp only [locateFirstLastElem, if_neg hplen, hfind] <;> rfl

/-- Witness for C7: pattern "bc" does not occur in "xyz". -/
theorem C7_not_found_witness :
    locateFirstLastElem true true (some [120, 121, 122]) (some [98, 99])
      = (some (-1), some (-1)) ∧
    locateFirstLastElem true false (some [120, 121, 122]) (some [98, 99])
      = naRecord :=
  C7_not_found [120, 121, 122] [98, 99] true (by decide) (by decide)

/-- C8: in all mode, an empty pattern or a pattern with no match yields zero
rows when `omit_no_match` is set, else a single sentinel row that is
`(-1,-1)` in length mode and NA otherwise. -/
theorem C8_all_sentinel (subj pat : ByteStr) (om gl ov : Bool)
    (h : pat = [] ∨ ∀ i, i < subj.length → matchesAt subj pat i = false) :
    locateAllElem ov om gl (some subj) (some pat) =
      if om then []
      else [if gl then ((some (-1) : Option Int), (some (-1) : Option Int))
            else naRecord] := by
  by_cases hplen : pat.length = 0
  · simp only [locateAllElem, if_pos hplen]
    rfl
  · have hpne : pat ≠ [] := fun hcon => hplen (by rw [hcon]; rfl)
    have hno : ∀ i, i < subj.length → matchesAt subj pat i = false := by
      rcases h with rfl | h2
      · exact absurd rfl hplen
      · exact h2
    have hfind : findFirst subj pat = none := findFirst_eq_none hpne hno
    simp only [locateAllElem, if_neg hplen, hfind]
    rfl

/-- Witness for C8: pattern "a" does not occur in "x". -/
theorem C8_all_sentinel_witness :
    locateAllElem false false false (some [120]) (some [97]) = [naRecord] := by
  have := C8_all_sentinel [120] [97] false false false (Or.inr (by decide))
  simpa using this

/-- C9: when the pattern occurs exactly once in the subject, first-match and
last-match search return the same record (for either output shape). -/
theorem C9_first_eq_last (s p : ByteStr) (gl : Bool)
    (h : ∃! i, matchesAt s p i = true) :
    locateFirstLastElem true gl (some s) (some p)
      = locateFirstLastElem false gl (some s) (some p) := by
  obtain ⟨i0, hm, huniq⟩ := h
  have hp : p ≠ [] := by
    rintro rfl
    have h0 := huniq i0 (by simp [matchesAt])
    have h1 := huniq (i0 + 1) (by simp [matchesAt])
    omega
  have hplen : ¬p.length = 0 := by
    simpa [List.length_eq_zero] using hp
  obtain ⟨b1, hb1⟩ := findFirst_isSome hp hm
  obtain ⟨b2, hb2⟩ := findLast_isSome hp hm
  have e1 : b1 = i0 := huniq _ (findFirst_some hb1)
  have e2 : b2 = i0 := huniq _ (findLast_some hb2)
  subst e1
  subst e2
  simp only [locateFirstLastElem, if_neg hplen, if_pos, hb1, hb2,
    Bool.false_eq_true, if_false, if_true]

/-- Witness for C9: "b" occurs exactly once in "ab". -/
theorem C9_first_eq_last_witness :
    locateFirstLastElem true false (some [97, 98]) (some [98])
      = locateFirstLastElem false false (some [97, 98]) (some [98]) := by
  apply C9_first_eq_last
  refine ⟨1, by decide, ?_⟩
  intro y hy
  match y with
  | 0 => exact absurd hy (by decide)
  | 1 => rfl
  | (n + 2) =>
    rw [matchesAt_false_of_le (by decide)
      (by simp only [List.length_cons, List.length_nil]; omega)] at hy
    exact absurd hy (by decide)

/-- C4: on valid-UTF-8 inputs (given by codepoint sequences), every
position-pair record `(start, end)` of first/last or all mode satisfies
`start ≤ end`, and the corresponding length-mode record at the same
vectorized place is `(start, end - start + 1)` — equivalently
`end = start + length - 1`. -/
theorem C4_position_length_relation (cs ds : List Nat) (first ov om : Bool) :
    (∀ a b : Int,
      locateFirstLastElem first false (some (utf8EncodeList cs))
        (some (utf8EncodeList ds)) = (some a, some b) →
      a ≤ b ∧ b = a + (b - a + 1) - 1 ∧
      locateFirstLastElem first true (some (utf8EncodeList cs))
        (some (utf8EncodeList ds)) = (some a, some (b - a + 1))) ∧
    (∀ (j : Nat) (a b : Int),
      (locateAllElem ov om false (some (utf8EncodeList cs))
        (some (utf8EncodeList ds))).get? j = some (some a, some b) →
      a ≤ b ∧
      (locateAllElem ov om true (some (utf8EncodeList cs))
        (some (utf8EncodeList ds))).get? j = some (some a, some (b - a + 1))) := by
  constructor
  · intro a b hab
    by_cases hds : ds = []
    · subst hds
      simp [locateFirstLastElem, utf8EncodeList, naRecord] at hab
    · have hds1 : 1 ≤ ds.length := by
        rcases ds with _ | ⟨d, ds'⟩
        · exact absurd rfl hds
        · simp
      have hplen : ¬(utf8EncodeList ds).length = 0 := by
        simpa [List.length_eq_zero] using utf8EncodeList_ne_nil hds
      rcases hfind : (if first then findFirst (utf8EncodeList cs)
          (utf8EncodeList ds) else findLast (utf8EncodeList cs)
          (utf8EncodeList ds)) with _ | b0
      · simp [locateFirstLastElem, if_neg hplen, hfind, naRecord] at hab
      · obtain ⟨k, hk, hcb, hrec⟩ :=
          locateFirstLast_found cs ds first false hfind hds
        simp only [Bool.false_eq_true, if_false] at hrec
        rw [hrec] at hab
        obtain ⟨ha, hb⟩ : (k : Int) + 1 = a ∧ (k : Int) + ds.length = b := by
          simpa [Prod.mk.injEq] using hab
        obtain ⟨k2, hk2, hcb2, hrecT⟩ :=
          locateFirstLast_found cs ds first true hfind hds
        have hkk : k2 = k := hcb2.symm.trans hcb
        subst hkk
        simp only [if_true] at hrecT
        refine ⟨by omega, by omega, ?_⟩
        rw [hrecT]
        simp only [Prod.mk.injEq, Option.some.injEq]
        constructor <;> omega
  · intro j a b hab
    by_cases hds : ds = []
    · subst hds
      exfalso
      rcases om with _ | _ <;> rcases j with _ | j <;>
        simp [locateAllElem, utf8EncodeList, noMatchRows, naRecord] at hab
    · have hds1 : 1 ≤ ds.length := by
        rcases ds with _ | ⟨d, ds'⟩
        · exact absurd rfl hds
        · simp
      have hplen : ¬(utf8EncodeList ds).length = 0 := by
        simpa [List.length_eq_zero] using utf8EncodeList_ne_nil hds
      rcases hocc : (findAllOccurrences (utf8EncodeList cs)
          (utf8EncodeList ds) ov).get? j with _ | r
      · exfalso
        rcases hf : findFirst (utf8EncodeList cs) (utf8EncodeList ds)
            with _ | st0
        · rcases om with _ | _ <;> rcases j with _ | j <;>
            simp [locateAllElem, if_neg hplen, hf, noMatchRows, naRecord] at hab
        · simp only [locateAllElem, if_neg hplen, hf] at hab
          rw [List.get?_map, hocc] at hab
          simp at hab
      · obtain ⟨k, hk, hpos, hlen⟩ := locateAll_record cs ds ov om hocc hds
        rw [hpos] at hab
        obtain ⟨ha, hb⟩ : (k : Int) + 1 = a ∧ (k : Int) + ds.length = b := by
          simpa [Prod.mk.injEq] using hab
        refine ⟨by omega, ?_⟩
        rw [hlen]
        simp only [Option.some.injEq, Prod.mk.injEq]
        constructor <;> omega

/-- Witness for C4 at the concrete "é"+"bc" scenario: the position-pair
record is `(2,3)` and the length-mode record is `(2, 3-2+1)`. -/
theorem C4_position_length_relation_witness :
    (2 : Int) ≤ 3 ∧ (3 : Int) = 2 + (3 - 2 + 1) - 1 ∧
    locateFirstLastElem true true (some (utf8EncodeList [233, 98, 99]))
      (some (utf8EncodeList [98, 99])) = (some 2, some (3 - 2 + 1)) :=
  (C4_position_length_relation [233, 98, 99] [98, 99] true false false).1 2 3
    (by rfl)

/-- C10: for both recyclable list containers, an in-bounds index accesses the
underlying element `i mod n` (the recycling invariant), `get` succeeds exactly
when `isNA` reports false and throws the `isNA` exception on an NA element,
and a debug build throws `INDEX OUT OF BOUNDS` for any index outside
`[0, nrecycle)` instead of reading out of bounds. -/
theorem C10_container_recycling (d : List (Option ByteStr)) (e : List IntVec)
    (nrec : Nat) (i : Int) :
    (0 ≤ i → i < (nrec : Int) →
      ((StriContainerListUTF8.mk d nrec).isNA i
          = .ok ((d.getD (i.toNat % d.length) none).isNone) ∧
       (∀ v, (StriContainerListUTF8.mk d nrec).get i = .ok v ↔
          d.getD (i.toNat % d.length) none = some v) ∧
       ((∃ v, (StriContainerListUTF8.mk d nrec).get i = .ok v) ↔
          (StriContainerListUTF8.mk d nrec).isNA i = .ok false) ∧
       ((StriContainerListUTF8.mk d nrec).isNA i = .ok true →
          (StriContainerListUTF8.mk d nrec).get i
            = .error (StriException.mk "StriContainerListUTF8::get(): isNA"))) ∧
      ((StriContainerListInt.mk e nrec).isNA i
          = .ok ((e.getD (i.toNat % e.length) none).isNone) ∧
       (∀ v, (StriContainerListInt.mk e nrec).get i = .ok v ↔
          e.getD (i.toNat % e.length) none = some v) ∧
       ((∃ v, (StriContainerListInt.mk e nrec).get i = .ok v) ↔
          (StriContainerListInt.mk e nrec).isNA i = .ok false) ∧
       ((StriContainerListInt.mk e nrec).isNA i = .ok true →
          (StriContainerListInt.mk e nrec).get i
            = .error (StriException.mk "StriContainerListInt::get(): isNA")))) ∧
    (i < 0 ∨ (nrec : Int) ≤ i →
      (StriContainerListUTF8.mk d nrec).isNA i
        = .error (StriException.mk
            "StriContainerListUTF8::isNA(): INDEX OUT OF BOUNDS") ∧
      (StriContainerListUTF8.mk d nrec).get i
        = .error (StriException.mk
            "StriContainerListUTF8::get(): INDEX OUT OF BOUNDS") ∧
      (StriContainerListInt.mk e nrec).isNA i
        = .error (StriException.mk
            "StriContainerListInt::isNA(): INDEX OUT OF BOUNDS") ∧
      (StriContainerListInt.mk e nrec).get i
        = .error (StriException.mk
            "StriContainerListInt::get(): INDEX OUT OF BOUNDS")) := by
  constructor
  · intro h0 hn
    have hcond : ¬(i < 0 ∨ (nrec : Int) ≤ i) := by omega
    constructor
    · refine ⟨?_, ?_, ?_, ?_⟩
      · simp only [StriContainerListUTF8.isNA, StriContainerListUTF8.n,
          if_neg hcond]
      · intro v
        simp only [StriContainerListUTF8.get, if_neg hcond]
        rcases hv : d.getD (i.toNat % (StriContainerListUTF8.mk d nrec).n) none
            with _ | v0
        · constructor
          · intro hcon
            exact absurd hcon (by simp)
          · intro hcon
            exact absurd (hv.symm.trans hcon) (by simp)
        · constructor
          · intro hok
            have : v0 = v := by simpa using hok
            rw [← this]
            exact hv.symm ▸ rfl
          · intro hsome
            have : v0 = v := by
              have := hv.symm.trans hsome
              simpa using this
            rw [this]
      · simp only [StriContainerListUTF8.get, StriContainerListUTF8.isNA,
          if_neg hcond]
        rcases hv : d.getD (i.toNat % (StriContainerListUTF8.mk d nrec).n) none
            with _ | v0
        · simp
        · simp
      · intro hna
        simp only [StriContainerListUTF8.isNA, if_neg hcond] at hna
        have : (d.getD (i.toNat % (StriContainerListUTF8.mk d nrec).n)
            none).isNone = true := by simpa using hna
        have hnone : d.getD (i.toNat % (StriContainerListUTF8.mk d nrec).n)
            none = none := Option.isNone_iff_eq_none.mp this
        simp only [StriContainerListUTF8.get, if_neg hcond, hnone]
    · refine ⟨?_, ?_, ?_, ?_⟩
      · simp only [StriContainerListInt.isNA, StriContainerListInt.n,
          if_neg hcond]
      · intro v
        simp only [StriContainerListInt.get, if_neg hcond]
        rcases hv : e.getD (i.toNat % (StriContainerListInt.mk e nrec).n) none
            with _ | v0
        · constructor
          · intro hcon
            exact absurd hcon (by simp)
          · intro hcon
            exact absurd (hv.symm.trans hcon) (by simp)
        · constructor
          · intro hok
            have : v0 = v := by simpa using hok
            rw [← this]
            exact hv.symm ▸ rfl
          · intro hsome
            have : v0 = v := by
              have := hv.symm.trans hsome
              simpa using this
            rw [this]
      · simp only [StriContainerListInt.get, StriContainerListInt.isNA,
          if_neg hcond]
        rcases hv : e.getD (i.toNat % (StriContainerListInt.mk e nrec).n) none
            with _ | v0
        · simp
        · simp
      · intro hna
        simp only [StriContainerListInt.isNA, if_neg hcond] at hna
        have : (e.getD (i.toNat % (StriContainerListInt.mk e nrec).n)
            none).isNone = true := by simpa using hna
        have hnone : e.getD (i.toNat % (StriContainerListInt.mk e nrec).n)
            none = none := Option.isNone_iff_eq_none.mp this
        simp only [StriContainerListInt.get, if_neg hcond, hnone]
  · intro hcond
    refine ⟨?_, ?_, ?_, ?_⟩ <;>
      simp only [StriContainerListUTF8.isNA, StriContainerListUTF8.get,
        StriContainerListInt.isNA, StriContainerListInt.get, if_pos hcond]

/-- Witness for C10: index 3 on 2-element data recycled to length 4 reads
element `3 mod 2 = 1`; index `-1` throws the bounds exception. -/
theorem C10_container_recycling_witness :
    (StriContainerListUTF8.mk [some [97], none] 4).isNA 3 = .ok true ∧
    (StriContainerListUTF8.mk [some [97], none] 4).get 3
      = .error (StriException.mk "StriContainerListUTF8::get(): isNA") ∧
    (StriContainerListInt.mk [none, some [5]] 4).get 3 = .ok [5] ∧
    (StriContainerListInt.mk [none, some [5]] 4).get (-1)
      = .error (StriException.mk
          "StriContainerListInt::get(): INDEX OUT OF BOUNDS") := by
  have h1 := (C10_container_recycling [some [97], none] [none, some [5]] 4 3).1
    (by decide) (by decide)
  have h2 := (C10_container_recycling [some [97], none] [none, some [5]] 4
    (-1)).2 (Or.inl (by decide))
  have hna : (StriContainerListUTF8.mk [some [97], none] 4).isNA 3
      = .ok true := by
    have := h1.1.1
    simpa using this
  refine ⟨hna, h1.1.2.2.2 hna, ?_, h2.2.2.2⟩
  exact (h1.2.2.1 [5]).mpr (by rfl)
